import Mathlib

/-! A libretro core that composites one static frame (`src/main.c`).

Shallow embedding of `retro_init` and `retro_run`.

* The core's globals (`window`, `renderer`, `screen_texture`, `ft_library`,
  `ft_face`, `running`) are the record `Core`, passed explicitly.
* SDL, FreeType and the host are outside the program.  Their answers are the
  fields of `InitEnv` and `RunEnv`; the calls the program makes to them, and every
  store through the leased pixel pointer, are recorded in program order as a list
  of `Event`s.  Diagnostic output (`printf`, `fprintf`) is not recorded.
* A store `pixel_data[row * (pitch / 4) + col] = v` is the event
  `Event.store row (pitch / 4) col v`.  Memory around the pixel pointer is flat:
  `Mem` maps a word offset from `pixels` (possibly negative) to a 32-bit value and
  `exec` replays the stores of a trace on it.
* The pen `x` is a 32-bit `int`: `x += advance.x >> 6` adds in `long` and narrows
  the sum to 32 bits (`toInt32`); `>> 6` is the arithmetic shift.  The index
  expressions of the stores are `int` expressions whose overflow is undefined in C;
  they are interpreted exactly over `Int`.  `pitch / 4` is C's truncating division.
* Reading `font_paths` past its end is undefined behaviour: the trace records the
  attempted call, then `Event.undefined_behaviour`, and ends there.
-/

namespace LibretroCore

/-! ## Data model -/

/-- The static variables of `main.c`; a handle is `none` when the pointer is `NULL`. -/
structure Core where
  window : Option Nat
  renderer : Option Nat
  screen_texture : Option Nat
  ft_library : Option Nat
  ft_face : Option Nat
  running : Int
  deriving DecidableEq

/-- The initial values of the static variables. -/
def Core.initial : Core :=
  { window := none, renderer := none, screen_texture := none,
    ft_library := none, ft_face := none, running := 0 }

/-- The fields of `ft_face->glyph` that `retro_run` reads after a successful
`FT_Load_Char`: `bitmap.width`, `bitmap.rows` (unsigned), `bitmap.buffer` (bytes,
read at `by * width + bx`), `bitmap_top`, `bitmap_left` and `advance.x` (26.6). -/
structure Glyph where
  width : Nat
  rows : Nat
  buffer : Nat → Nat
  bitmap_top : Int
  bitmap_left : Int
  advance_x : Int

/-- The pen of the text loop: the locals `x` and `y` of `retro_run`. -/
structure Pen where
  x : Int
  y : Int
  deriving DecidableEq

/-- Calls made by the core and stores through the leased pixel pointer. -/
inductive Event where
  | SDL_Init (ret : Int)
  | FT_Init_FreeType (err : Int)
  | FT_New_Face (i : Nat) (path : Option String) (err : Int)
  | FT_Set_Char_Size (err : Int)
  | SDL_CreateWindow (ret : Option Nat)
  | SDL_CreateRenderer (ret : Option Nat)
  | SDL_CreateTexture (ret : Option Nat)
  | SDL_DestroyRenderer
  | SDL_DestroyWindow
  | FT_Done_Face
  | FT_Done_FreeType
  | SDL_Quit
  | SDL_LockTexture (ret : Int)
  | store (row stride col : Int) (v : Nat)
  | SDL_UnlockTexture
  | video_cb (width height : Nat) (pitch : Int)
  | SDL_SetRenderDrawColor (r g b a : Nat)
  | SDL_RenderClear
  | SDL_RenderFillRect (x y w h : Int)
  | SDL_RenderPresent
  | input_poll_cb
  | audio_batch_cb (frames : Nat)
  | undefined_behaviour
  deriving DecidableEq

/-- Flat memory around the leased pointer: word offset from `pixels` to value. -/
abbrev Mem := Int → Nat

/-- Black, `0xFF000000`. -/
def BLACK : Nat := 0xFF000000

/-- Red, `0xFFFF0000`. -/
def RED : Nat := 0xFFFF0000

/-- White, `0xFFFFFFFF`. -/
def WHITE : Nat := 0xFFFFFFFF

/-- The local `baseline_offset` of `retro_run`. -/
def baseline_offset : Int := 24

/-- The string literal drawn by `retro_run`. -/
def text : List Char := "Hello World".toList

/-- The array `font_paths` of `retro_init`: one entry. -/
def font_paths : List String := ["fonts/Kenney Mini.ttf"]

/-! ## Memory effect of a trace -/

/-- Effect of one event on memory: only stores change it. -/
def applyEvent (m : Mem) : Event → Mem
  | .store row stride col v => Function.update m (row * stride + col) v
  | _ => m

/-- Replays a trace on memory, in program order. -/
def exec (m : Mem) (t : List Event) : Mem := t.foldl applyEvent m

/-- The word of pixel `(x, y)` for a given row stride: `pixel_data[y * stride + x]`. -/
def pixelAt (m : Mem) (stride x y : Int) : Nat := m (y * stride + x)

/-- The address a store event writes, if it is one. -/
def Event.addr : Event → Option Int
  | .store row stride col _ => some (row * stride + col)
  | _ => none

/-- The value a store event writes, if it is one. -/
def Event.val : Event → Option Nat
  | .store _ _ _ v => some v
  | _ => none

/-- Uses of the leased pointer: stores through it and its hand-over to `video_cb`. -/
def Event.usesPixels : Event → Bool
  | .store _ _ _ _ => true
  | .video_cb _ _ _ => true
  | _ => false

/-- The three host callbacks of a frame. -/
def Event.isCallback : Event → Bool
  | .video_cb _ _ _ => true
  | .input_poll_cb => true
  | .audio_batch_cb _ => true
  | _ => false

/-! ## `retro_run` -/

/-- The loop `for (int i = start; cond(i); i++) body(i)`, with the events of its
body.  `fuel` bounds the number of iterations; every use below passes the distance
to the constant bound of `cond`, which is enough (`forLoop_fuel`). -/
def forLoop (cond : Nat → Bool) (body : Nat → List Event) : Nat → Nat → List Event
  | 0, _ => []
  | fuel + 1, i => if cond i then body i ++ forLoop cond body fuel (i + 1) else []

/-- Lines 196-200: clear to black. -/
def clearStage (stride : Int) : List Event :=
  forLoop (fun y => decide (y < 480))
    (fun y => forLoop (fun x => decide (x < 640))
      (fun x => [Event.store y stride x BLACK]) 640 0) 480 0

/-- Lines 203-207: the red rectangle. -/
def rectStage (stride : Int) : List Event :=
  forLoop (fun y => decide (y < 300))
    (fun y => forLoop (fun x => decide (x < 300))
      (fun x => [Event.store y stride x RED]) 200 100) 200 100

/-- Lines 226-233: the two loops over the glyph bitmap, for pen `(x, y)`. -/
def drawGlyph (g : Glyph) (stride x y : Int) : List Event :=
  forLoop
    (fun by_ => decide (by_ < g.rows) &&
      decide ((by_ : Int) + y - g.bitmap_top + baseline_offset < 480))
    (fun by_ => forLoop
      (fun bx => decide (bx < g.width) && decide ((bx : Int) + x + g.bitmap_left < 640))
      (fun bx =>
        if g.buffer (by_ * g.width + bx) > 0 then
          [Event.store ((by_ : Int) + y - g.bitmap_top + baseline_offset) stride
            ((bx : Int) + x + g.bitmap_left) WHITE]
        else [])
      g.width 0)
    g.rows 0

/-- What the outside world answers during one `retro_run`: the return value of
`SDL_LockTexture` and the pitch it stores, and for the `i`-th character `c` of the
text the outcome of `FT_Load_Char` (`none`: a non-zero error code). -/
structure RunEnv where
  SDL_LockTexture : Int
  pitch : Int
  FT_Load_Char : Nat → Char → Option Glyph

/-- Narrowing of a `long` to the 32-bit `int`: the value congruent modulo `2^32`
in `[-2^31, 2^31)`. -/
def toInt32 (n : Int) : Int := (n + 2147483648) % 4294967296 - 2147483648

/-- One iteration of the text loop (lines 215-235), for the `i`-th character.  Line
235, `x += slot->advance.x >> 6`, adds in `long` and stores the sum in the `int x`. -/
def textStep (env : RunEnv) (stride : Int) (i : Nat) (c : Char) (pen : Pen) :
    Pen × List Event :=
  match env.FT_Load_Char i c with
  | none => (pen, [])
  | some g =>
    ({ pen with x := toInt32 (pen.x + (g.advance_x >>> (6 : Nat))) },
      drawGlyph g stride pen.x pen.y)

/-- The text loop (line 214) over the characters from position `i` on. -/
def textLoop (env : RunEnv) (stride : Int) : Nat → List Char → Pen → Pen × List Event
  | _, [], pen => (pen, [])
  | i, c :: cs, pen =>
    let r := textStep env stride i c pen
    let r' := textLoop env stride (i + 1) cs r.1
    (r'.1, r.2 ++ r'.2)

/-- The stores of lines 194-207, before any text. -/
def fillStages (stride : Int) : List Event := clearStage stride ++ rectStage stride

/-- The calls after the text loop, lines 238-255. -/
def frameEnd (pitch : Int) : List Event :=
  [Event.SDL_UnlockTexture, Event.video_cb 640 480 pitch,
   Event.SDL_SetRenderDrawColor 0 0 0 255, Event.SDL_RenderClear,
   Event.SDL_SetRenderDrawColor 255 0 0 255, Event.SDL_RenderFillRect 100 100 200 200,
   Event.SDL_RenderPresent, Event.input_poll_cb, Event.audio_batch_cb 0]

/-- The function `retro_run`: the core after the call and the trace of the call. -/
def retro_run (env : RunEnv) (s : Core) : Core × List Event :=
  if s.running = 0 then (s, [])
  else if env.SDL_LockTexture ≠ 0 then (s, [Event.SDL_LockTexture env.SDL_LockTexture])
  else
    let stride := Int.tdiv env.pitch 4
    (s, Event.SDL_LockTexture env.SDL_LockTexture ::
      (fillStages stride ++ (textLoop env stride 0 text { x := 50, y := 50 }).2
        ++ frameEnd env.pitch))

/-- What the outside world answers during one `retro_init`: return values and
error codes, the handles returned, and what the two FreeType calls leave in their
out-parameter given its old content. -/
structure InitEnv where
  SDL_Init : Int
  FT_Init_FreeType : Int
  ft_library_out : Option Nat → Option Nat
  FT_New_Face : Nat → Int
  ft_face_out : Nat → Option Nat → Option Nat
  FT_Set_Char_Size : Int
  SDL_CreateWindow : Option Nat
  SDL_CreateRenderer : Option Nat
  SDL_CreateTexture : Option Nat

/-- How the font loop ends: a face was loaded, every attempt failed, or the loop
read `font_paths` past its end, from where the behaviour of the call is undefined. -/
inductive FontLoad where
  | loaded
  | failed
  | undefined
  deriving DecidableEq

/-- Lines 65-73: the font loop from index `i`, on the current `ft_face`.  Returns
how the loop ends, the new `ft_face` and the calls.  When the index is outside
`font_paths` the read of `font_paths[i]` is undefined behaviour: the attempted call
is recorded with path `none` (and the error code the environment would answer if
the call returned), then `Event.undefined_behaviour`, and the loop's model stops. -/
def fontLoop (env : InitEnv) : Nat → Nat → Option Nat → FontLoad × Option Nat × List Event
  | 0, _, face => (.failed, face, [])
  | fuel + 1, i, face =>
    if i < 3 then
      match font_paths[i]? with
      | none =>
        (.undefined, face,
          [Event.FT_New_Face i none (env.FT_New_Face i), Event.undefined_behaviour])
      | some path =>
        let error := env.FT_New_Face i
        let face1 := env.ft_face_out i face
        if error = 0 then (.loaded, face1, [Event.FT_New_Face i (some path) error])
        else
          let r := fontLoop env fuel (i + 1) face1
          (r.1, r.2.1, Event.FT_New_Face i (some path) error :: r.2.2)
    else (.failed, face, [])

/-- The function `retro_init`: the core after the call and the trace of the call.
When the font loop runs into undefined behaviour the trace ends there and the
returned core is the one at that point. -/
def retro_init (env : InitEnv) (s : Core) : Core × List Event :=
  let t0 := [Event.SDL_Init env.SDL_Init]
  if env.SDL_Init < 0 then (s, t0)
  else
    let s1 := { s with ft_library := env.ft_library_out s.ft_library }
    let t1 := t0 ++ [Event.FT_Init_FreeType env.FT_Init_FreeType]
    if env.FT_Init_FreeType ≠ 0 then (s1, t1 ++ [Event.SDL_Quit])
    else
      let f := fontLoop env 3 0 s1.ft_face
      let s2 := { s1 with ft_face := f.2.1 }
      let t2 := t1 ++ f.2.2
      match f.1 with
      | .undefined => (s2, t2)
      | .failed => (s2, t2 ++ [Event.FT_Done_FreeType, Event.SDL_Quit])
      | .loaded =>
        let t3 := t2 ++ [Event.FT_Set_Char_Size env.FT_Set_Char_Size]
        if env.FT_Set_Char_Size ≠ 0 then
          (s2, t3 ++ [Event.FT_Done_Face, Event.FT_Done_FreeType, Event.SDL_Quit])
        else
          let s4 := { s2 with window := env.SDL_CreateWindow }
          let t4 := t3 ++ [Event.SDL_CreateWindow env.SDL_CreateWindow]
          if s4.window = none then
            (s4, t4 ++ [Event.FT_Done_Face, Event.FT_Done_FreeType, Event.SDL_Quit])
          else
            let s5 := { s4 with renderer := env.SDL_CreateRenderer }
            let t5 := t4 ++ [Event.SDL_CreateRenderer env.SDL_CreateRenderer]
            if s5.renderer = none then
              (s5, t5 ++ [Event.SDL_DestroyWindow, Event.FT_Done_Face,
                Event.FT_Done_FreeType, Event.SDL_Quit])
            else
              let s6 := { s5 with screen_texture := env.SDL_CreateTexture }
              let t6 := t5 ++ [Event.SDL_CreateTexture env.SDL_CreateTexture]
              if s6.screen_texture = none then
                (s6, t6 ++ [Event.SDL_DestroyRenderer, Event.SDL_DestroyWindow,
                  Event.FT_Done_Face, Event.FT_Done_FreeType, Event.SDL_Quit])
              else ({ s6 with running := 1 }, t6)

/-- The resources `retro_init` acquires, in the order of acquisition. -/
inductive Resource where
  | sdl
  | ft_library
  | ft_face
  | window
  | renderer
  | screen_texture
  deriving DecidableEq

/-- The resource a call acquired, when it succeeded. -/
def Event.acquires : Event → Option Resource
  | .SDL_Init ret => if ret < 0 then none else some .sdl
  | .FT_Init_FreeType err => if err = 0 then some .ft_library else none
  | .FT_New_Face _ (some _) err => if err = 0 then some .ft_face else none
  | .SDL_CreateWindow ret => if ret = none then none else some .window
  | .SDL_CreateRenderer ret => if ret = none then none else some .renderer
  | .SDL_CreateTexture ret => if ret = none then none else some .screen_texture
  | _ => none

/-- The resource a call releases. -/
def Event.releases : Event → Option Resource
  | .SDL_Quit => some .sdl
  | .FT_Done_FreeType => some .ft_library
  | .FT_Done_Face => some .ft_face
  | .SDL_DestroyWindow => some .window
  | .SDL_DestroyRenderer => some .renderer
  | _ => none

/-- The resources acquired during a trace, in order. -/
def acquired (t : List Event) : List Resource := t.filterMap Event.acquires

/-- The resources released during a trace, in order. -/
def released (t : List Event) : List Resource := t.filterMap Event.releases

/-- The steps of `retro_init` whose failure is a defined execution.  The font face
load is not among them: when the first `FT_New_Face` fails the loop reads
`font_paths[1]`, past the array. -/
inductive Step where
  | sdl_init
  | ft_init
  | char_size
  | window
  | renderer
  | texture
  deriving DecidableEq

/-- The step of `retro_init` that fails under `env`, if the call gets to one: the
conditions of lines 48, 53, 83, 97, 106 and 121 in order.  `none` when the first
font attempt fails (the call then runs into undefined behaviour) and when every
step succeeds. -/
def failingStep (env : InitEnv) : Option Step :=
  if env.SDL_Init < 0 then some .sdl_init
  else if env.FT_Init_FreeType ≠ 0 then some .ft_init
  else if env.FT_New_Face 0 ≠ 0 then none
  else if env.FT_Set_Char_Size ≠ 0 then some .char_size
  else if env.SDL_CreateWindow = none then some .window
  else if env.SDL_CreateRenderer = none then some .renderer
  else if env.SDL_CreateTexture = none then some .texture
  else none

/-- The resources held when a step is reached, in the order of acquisition. -/
def heldBefore : Step → List Resource
  | .sdl_init => []
  | .ft_init => [.sdl]
  | .char_size => [.sdl, .ft_library, .ft_face]
  | .window => [.sdl, .ft_library, .ft_face]
  | .renderer => [.sdl, .ft_library, .ft_face, .window]
  | .texture => [.sdl, .ft_library, .ft_face, .window, .renderer]

/-! ## Reference definitions and sample inputs -/

/-- Compositing as the specification words it, for a pixel `(px, py)` of the frame
holding `old`: white when some non-zero coverage cell `(bx, by)` has
`(pen.x + bearing_left + bx, pen.y + 24 - bearing_top + by) = (px, py)`, else `old`. -/
def specPixel (g : Glyph) (pen : Pen) (old : Nat) (px py : Int) : Nat :=
  if (List.range g.rows).any (fun by_ => (List.range g.width).any (fun bx =>
      decide (g.buffer (by_ * g.width + bx) ≠ 0) &&
      decide (px = pen.x + g.bitmap_left + (bx : Int)) &&
      decide (py = pen.y + 24 - g.bitmap_top + (by_ : Int))))
  then WHITE else old

/-- A core after a successful `retro_init`. -/
def coreRunning : Core :=
  { window := some 1, renderer := some 2, screen_texture := some 3,
    ft_library := some 4, ft_face := some 5, running := 1 }

/-- One opaque cell, left bearing `-60`: at pen `(50, 50)` its target is `(-10, 74)`. -/
def glyphLeft : Glyph :=
  { width := 1, rows := 1, buffer := fun _ => 255,
    bitmap_top := 0, bitmap_left := -60, advance_x := 0 }

/-- One opaque cell, top bearing `80`: at pen `(50, 50)` its target is `(50, -6)`. -/
def glyphTop : Glyph :=
  { width := 1, rows := 1, buffer := fun _ => 255,
    bitmap_top := 80, bitmap_left := 0, advance_x := 0 }

/-- A frame with pitch 2560 in which only the first character rasterizes, to `g`. -/
def envFirst (g : Glyph) : RunEnv :=
  { SDL_LockTexture := 0, pitch := 2560,
    FT_Load_Char := fun i _ => if i = 0 then some g else none }

/-- A frame with pitch 2560 in which no character rasterizes. -/
def envNoGlyph : RunEnv :=
  { SDL_LockTexture := 0, pitch := 2560, FT_Load_Char := fun _ _ => none }

/-- A frame whose lock fails. -/
def envLockFails : RunEnv :=
  { SDL_LockTexture := -1, pitch := 0, FT_Load_Char := fun _ _ => none }

/-- An initialization in which every call succeeds. -/
def initOk : InitEnv :=
  { SDL_Init := 0, FT_Init_FreeType := 0, ft_library_out := fun _ => some 4,
    FT_New_Face := fun _ => 0, ft_face_out := fun _ _ => some 5, FT_Set_Char_Size := 0,
    SDL_CreateWindow := some 1, SDL_CreateRenderer := some 2, SDL_CreateTexture := some 3 }

/-- An initialization in which `SDL_Init` fails. -/
def initSdlFails : InitEnv := { initOk with SDL_Init := -1 }

/-- An initialization in which the font file is missing: `FT_New_Face` fails. -/
def initNoFont : InitEnv :=
  { initOk with FT_New_Face := fun _ => 1, ft_face_out := fun _ old => old }

/-- An initialization in which the texture cannot be created. -/
def initNoTexture : InitEnv := { initOk with SDL_CreateTexture := none }

/-- All-black memory. -/
def memBlack : Mem := fun _ => BLACK

/-! ## Loops -/

/-- The events of a loop are the events of the iterations reached with the
condition true all the way. -/
theorem mem_forLoop {cond : Nat → Bool} {body : Nat → List Event} {e : Event} :
    ∀ (fuel i : Nat), e ∈ forLoop cond body fuel i ↔
      ∃ j, i ≤ j ∧ j < i + fuel ∧ (∀ k, i ≤ k → k ≤ j → cond k = true) ∧ e ∈ body j := by
  intro fuel
  induction fuel with
  | zero =>
    intro i
    simp only [forLoop, List.not_mem_nil, false_iff]
    rintro ⟨j, h1, h2, -, -⟩
    omega
  | succ n ih =>
    intro i
    simp only [forLoop]
    by_cases hc : cond i = true
    · rw [if_pos hc, List.mem_append, ih]
      constructor
      · rintro (h | ⟨j, h1, h2, h3, h4⟩)
        · exact ⟨i, le_refl _, by omega, fun k hk1 hk2 => by
            have : k = i := by omega
            rw [this]; exact hc, h⟩
        · refine ⟨j, by omega, by omega, fun k hk1 hk2 => ?_, h4⟩
          by_cases hki : k = i
          · rw [hki]; exact hc
          · exact h3 k (by omega) hk2
      · rintro ⟨j, h1, h2, h3, h4⟩
        by_cases hji : j = i
        · left; rw [← hji]; exact h4
        · right
          exact ⟨j, by omega, by omega, fun k hk1 hk2 => h3 k (by omega) hk2, h4⟩
    · rw [if_neg hc]
      simp only [List.not_mem_nil, false_iff]
      rintro ⟨j, h1, -, h3, -⟩
      exact hc (h3 i (le_refl _) h1)

/-- Fuel is enough as soon as the condition is false at `i + fuel`: the loop then
ends on its condition, and more fuel changes nothing. -/
theorem forLoop_fuel (cond : Nat → Bool) (body : Nat → List Event) :
    ∀ (fuel i k : Nat), cond (i + fuel) = false →
      forLoop cond body (fuel + k) i = forLoop cond body fuel i := by
  intro fuel
  induction fuel with
  | zero =>
    intro i k h
    cases k with
    | zero => rfl
    | succ k =>
      have h' : cond i = false := by simpa using h
      simp [forLoop, h']
  | succ n ih =>
    intro i k h
    have e1 : n + 1 + k = (n + k) + 1 := by omega
    rw [e1]
    simp only [forLoop]
    have h' : cond (i + 1 + n) = false := by
      have : i + 1 + n = i + (n + 1) := by omega
      rw [this]; exact h
    rw [ih (i + 1) k h']

/-! ## Memory after a trace -/

theorem exec_append (m : Mem) (t1 t2 : List Event) :
    exec m (t1 ++ t2) = exec (exec m t1) t2 := by
  simp [exec, List.foldl_append]

theorem exec_cons (m : Mem) (e : Event) (t : List Event) :
    exec m (e :: t) = exec (applyEvent m e) t := rfl

theorem applyEvent_of_addr_ne (m : Mem) (e : Event) (a : Int) (h : e.addr ≠ some a) :
    applyEvent m e a = m a := by
  cases e with
  | store row stride col v =>
    have h' : a ≠ row * stride + col := fun hc => h (by rw [hc]; rfl)
    simp [applyEvent, Function.update, h']
  | _ => rfl

theorem applyEvent_of_addr_eq (m : Mem) (e : Event) (a : Int) (h : e.addr = some a) :
    e.val = some (applyEvent m e a) := by
  cases e with
  | store row stride col v =>
    have h' : row * stride + col = a := by
      have := h
      simp only [Event.addr, Option.some.injEq] at this
      exact this
    subst h'
    simp [applyEvent, Event.val]
  | _ => simp [Event.addr] at h

/-- After a trace a word is either untouched, no store of the trace addressing it,
or holds the value of a store of the trace that addresses it. -/
theorem exec_cases (t : List Event) : ∀ (m : Mem) (a : Int),
    (exec m t a = m a ∧ ∀ e ∈ t, e.addr ≠ some a) ∨
      (∃ e ∈ t, e.addr = some a ∧ e.val = some (exec m t a)) := by
  induction t with
  | nil => intro m a; left; exact ⟨rfl, by simp⟩
  | cons e t ih =>
    intro m a
    rw [exec_cons]
    rcases ih (applyEvent m e) a with ⟨h1, h2⟩ | ⟨e', he', h3, h4⟩
    · by_cases hea : e.addr = some a
      · right
        refine ⟨e, List.mem_cons_self _ _, hea, ?_⟩
        rw [h1]
        exact applyEvent_of_addr_eq m e a hea
      · left
        constructor
        · rw [h1]
          exact applyEvent_of_addr_ne m e a hea
        · intro e' he'
          rcases List.mem_cons.mp he' with rfl | h
          · exact hea
          · exact h2 e' h
    · right
      exact ⟨e', List.mem_cons_of_mem _ he', h3, h4⟩

/-- A word no store of the trace addresses keeps its value. -/
theorem exec_not_hit (t : List Event) (m : Mem) (a : Int)
    (h : ∀ e ∈ t, e.addr ≠ some a) : exec m t a = m a := by
  rcases exec_cases t m a with ⟨h1, -⟩ | ⟨e, he, h3, -⟩
  · exact h1
  · exact absurd h3 (h e he)

/-- A word some store of the trace addresses ends with a value written to it. -/
theorem exec_hit (P : Nat → Prop) (t : List Event) (m : Mem) (a : Int)
    (h1 : ∃ e ∈ t, e.addr = some a)
    (h2 : ∀ e ∈ t, e.addr = some a → ∀ v, e.val = some v → P v) : P (exec m t a) := by
  rcases exec_cases t m a with ⟨-, h⟩ | ⟨e, he, h3, h4⟩
  · obtain ⟨e, he, h3⟩ := h1
    exact absurd h3 (h e he)
  · exact h2 e he h3 _ h4

/-! ## The stores of each stage -/

theorem mem_clearStage {stride : Int} {e : Event} :
    e ∈ clearStage stride ↔
      ∃ y x : Nat, y < 480 ∧ x < 640 ∧ e = Event.store y stride x BLACK := by
  unfold clearStage
  simp only [mem_forLoop]
  constructor
  · rintro ⟨j, -, hj, -, i, -, hi, -, he⟩
    exact ⟨j, i, by omega, by omega, by simpa using he⟩
  · rintro ⟨y, x, hy, hx, rfl⟩
    refine ⟨y, Nat.zero_le _, by omega, fun k _ hk => ?_, x, Nat.zero_le _, by omega,
      fun k _ hk => ?_, by simp⟩
    · simp only [decide_eq_true_eq]; omega
    · simp only [decide_eq_true_eq]; omega

theorem mem_rectStage {stride : Int} {e : Event} :
    e ∈ rectStage stride ↔
      ∃ y x : Nat, 100 ≤ y ∧ y < 300 ∧ 100 ≤ x ∧ x < 300 ∧
        e = Event.store y stride x RED := by
  unfold rectStage
  simp only [mem_forLoop]
  constructor
  · rintro ⟨j, hj0, hj, -, i, hi0, hi, -, he⟩
    exact ⟨j, i, hj0, by omega, hi0, by omega, by simpa using he⟩
  · rintro ⟨y, x, hy0, hy, hx0, hx, rfl⟩
    refine ⟨y, hy0, by omega, fun k _ hk => ?_, x, hx0, by omega,
      fun k _ hk => ?_, by simp⟩
    · simp only [decide_eq_true_eq]; omega
    · simp only [decide_eq_true_eq]; omega

/-- The stores of a glyph: one white store per non-zero coverage cell whose target
row is below 480 and whose target column is below 640.  Nothing bounds the target
from below. -/
theorem mem_drawGlyph {g : Glyph} {stride x y : Int} {e : Event} :
    e ∈ drawGlyph g stride x y ↔
      ∃ by_ bx : Nat, by_ < g.rows ∧ bx < g.width ∧
        (by_ : Int) + y - g.bitmap_top + baseline_offset < 480 ∧
        (bx : Int) + x + g.bitmap_left < 640 ∧
        0 < g.buffer (by_ * g.width + bx) ∧
        e = Event.store ((by_ : Int) + y - g.bitmap_top + baseline_offset) stride
          ((bx : Int) + x + g.bitmap_left) WHITE := by
  unfold drawGlyph
  simp only [mem_forLoop]
  constructor
  · rintro ⟨j, -, -, hj, i, -, -, hi, he⟩
    have hj' := hj j (Nat.zero_le _) (le_refl _)
    have hi' := hi i (Nat.zero_le _) (le_refl _)
    simp only [Bool.and_eq_true, decide_eq_true_eq] at hj' hi'
    by_cases hb : g.buffer (j * g.width + i) > 0
    · rw [if_pos hb] at he
      exact ⟨j, i, hj'.1, hi'.1, hj'.2, hi'.2, hb, by simpa using he⟩
    · rw [if_neg hb] at he
      simp at he
  · rintro ⟨j, i, hj, hi, hr, hc, hb, rfl⟩
    refine ⟨j, Nat.zero_le _, by omega, fun k _ hk => ?_, i, Nat.zero_le _, by omega,
      fun k _ hk => ?_, ?_⟩
    · simp only [Bool.and_eq_true, decide_eq_true_eq]
      constructor
      · omega
      · have : (k : Int) ≤ j := by exact_mod_cast hk
        omega
    · simp only [Bool.and_eq_true, decide_eq_true_eq]
      constructor
      · omega
      · have : (k : Int) ≤ i := by exact_mod_cast hk
        omega
    · rw [if_pos hb]; simp

/-- The fuel of the clear loops is enough: with more the stage is the same. -/
theorem clearStage_fuel (stride : Int) (k1 k2 : Nat) :
    forLoop (fun y => decide (y < 480))
      (fun y => forLoop (fun x => decide (x < 640))
        (fun x => [Event.store y stride x BLACK]) (640 + k2) 0) (480 + k1) 0
      = clearStage stride := by
  unfold clearStage
  rw [forLoop_fuel _ _ 480 0 k1 (by decide)]
  congr 1
  funext y
  exact forLoop_fuel _ _ 640 0 k2 (by decide)

/-- The fuel of the rectangle loops is enough. -/
theorem rectStage_fuel (stride : Int) (k1 k2 : Nat) :
    forLoop (fun y => decide (y < 300))
      (fun y => forLoop (fun x => decide (x < 300))
        (fun x => [Event.store y stride x RED]) (200 + k2) 100) (200 + k1) 100
      = rectStage stride := by
  unfold rectStage
  rw [forLoop_fuel _ _ 200 100 k1 (by decide)]
  congr 1
  funext y
  exact forLoop_fuel _ _ 200 100 k2 (by decide)

/-- The fuel of the glyph loops is enough. -/
theorem drawGlyph_fuel (g : Glyph) (stride x y : Int) (k1 k2 : Nat) :
    forLoop
      (fun by_ => decide (by_ < g.rows) &&
        decide ((by_ : Int) + y - g.bitmap_top + baseline_offset < 480))
      (fun by_ => forLoop
        (fun bx => decide (bx < g.width) && decide ((bx : Int) + x + g.bitmap_left < 640))
        (fun bx =>
          if g.buffer (by_ * g.width + bx) > 0 then
            [Event.store ((by_ : Int) + y - g.bitmap_top + baseline_offset) stride
              ((bx : Int) + x + g.bitmap_left) WHITE]
          else [])
        (g.width + k2) 0)
      (g.rows + k1) 0
      = drawGlyph g stride x y := by
  unfold drawGlyph
  rw [forLoop_fuel _ _ g.rows 0 k1 (by simp)]
  congr 1
  funext by_
  exact forLoop_fuel _ _ g.width 0 k2 (by simp)

/-- Every event of the text loop is a white store with the frame's stride. -/
theorem textLoop_store_white (env : RunEnv) (stride : Int) :
    ∀ (cs : List Char) (i : Nat) (pen : Pen), ∀ e ∈ (textLoop env stride i cs pen).2,
      ∃ row col : Int, e = Event.store row stride col WHITE := by
  intro cs
  induction cs with
  | nil => intro i pen e he; simp [textLoop] at he
  | cons c cs ih =>
    intro i pen e he
    simp only [textLoop, List.mem_append] at he
    rcases he with he | he
    · unfold textStep at he
      cases hl : env.FT_Load_Char i c with
      | none => rw [hl] at he; simp at he
      | some g =>
        rw [hl] at he
        obtain ⟨by_, bx, -, -, -, -, -, rfl⟩ := mem_drawGlyph.mp he
        exact ⟨_, _, rfl⟩
    · exact ih _ _ e he

/-! ## Frames -/

/-- The trace of a frame that gets its lease. -/
theorem retro_run_ok (env : RunEnv) (s : Core) (hrun : s.running ≠ 0)
    (hlock : env.SDL_LockTexture = 0) :
    retro_run env s = (s, Event.SDL_LockTexture 0 ::
      (fillStages (Int.tdiv env.pitch 4)
        ++ (textLoop env (Int.tdiv env.pitch 4) 0 text { x := 50, y := 50 }).2
        ++ frameEnd env.pitch)) := by
  simp [retro_run, hrun, hlock]

theorem frameEnd_val (pitch : Int) : ∀ e ∈ frameEnd pitch, e.val = none := by
  intro e he
  simp only [frameEnd, List.mem_cons, List.mem_singleton, List.not_mem_nil, or_false] at he
  rcases he with h | h | h | h | h | h | h | h | h <;> rw [h] <;> rfl

/-- Rows do not overlap when the stride is at least the width. -/
theorem addr_inj {stride x y x' y' : Int} (hs : 640 ≤ stride)
    (hx : 0 ≤ x ∧ x < 640) (hx' : 0 ≤ x' ∧ x' < 640)
    (h : y * stride + x = y' * stride + x') : y = y' ∧ x = x' := by
  have hy : y = y' := by
    rcases lt_trichotomy y y' with h1 | h1 | h1
    · exfalso
      have h2 : 1 * stride ≤ (y' - y) * stride :=
        Int.mul_le_mul_of_nonneg_right (by omega) (by omega)
      have h3 : (y' - y) * stride = y' * stride - y * stride := by ring
      omega
    · exact h1
    · exfalso
      have h2 : 1 * stride ≤ (y - y') * stride :=
        Int.mul_le_mul_of_nonneg_right (by omega) (by omega)
      have h3 : (y - y') * stride = y * stride - y' * stride := by ring
      omega
  subst hy
  exact ⟨rfl, by omega⟩

/-- The clear stage stores black at every pixel of the frame. -/
theorem clearStage_hit (stride x y : Int) (hx : 0 ≤ x ∧ x < 640) (hy : 0 ≤ y ∧ y < 480) :
    Event.store y stride x BLACK ∈ clearStage stride := by
  rw [mem_clearStage]
  refine ⟨y.toNat, x.toNat, by omega, by omega, ?_⟩
  rw [Int.toNat_of_nonneg hx.1, Int.toNat_of_nonneg hy.1]

/-- After the lock and the clear stage every pixel of the frame is black. -/
theorem exec_clear (m : Mem) (stride x y : Int) (hx : 0 ≤ x ∧ x < 640)
    (hy : 0 ≤ y ∧ y < 480) :
    exec m (Event.SDL_LockTexture 0 :: clearStage stride) (y * stride + x) = BLACK := by
  apply exec_hit (fun v => v = BLACK)
  · exact ⟨_, List.mem_cons_of_mem _ (clearStage_hit stride x y hx hy), rfl⟩
  · intro e he _ v hv
    rcases List.mem_cons.mp he with rfl | he
    · simp [Event.val] at hv
    · obtain ⟨y', x', -, -, rfl⟩ := mem_clearStage.mp he
      simpa [Event.val] using hv.symm

/-- After the two fill stages a pixel of the frame is red inside the rectangle and
black outside, for a stride of at least 640. -/
theorem exec_fill (m : Mem) (stride x y : Int) (hs : 640 ≤ stride)
    (hx : 0 ≤ x ∧ x < 640) (hy : 0 ≤ y ∧ y < 480) :
    exec m (Event.SDL_LockTexture 0 :: fillStages stride) (y * stride + x) =
      if 100 ≤ x ∧ x < 300 ∧ 100 ≤ y ∧ y < 300 then RED else BLACK := by
  have e1 : Event.SDL_LockTexture 0 :: fillStages stride
      = (Event.SDL_LockTexture 0 :: clearStage stride) ++ rectStage stride := by
    simp [fillStages]
  rw [e1, exec_append]
  by_cases hin : 100 ≤ x ∧ x < 300 ∧ 100 ≤ y ∧ y < 300
  · rw [if_pos hin]
    apply exec_hit (fun v => v = RED)
    · refine ⟨Event.store y stride x RED, ?_, rfl⟩
      rw [mem_rectStage]
      refine ⟨y.toNat, x.toNat, by omega, by omega, by omega, by omega, ?_⟩
      rw [Int.toNat_of_nonneg hx.1, Int.toNat_of_nonneg hy.1]
    · intro e he _ v hv
      obtain ⟨y', x', -, -, -, -, rfl⟩ := mem_rectStage.mp he
      simpa [Event.val] using hv.symm
  · rw [if_neg hin, exec_not_hit, exec_clear m stride x y hx hy]
    intro e he hea
    obtain ⟨y', x', hy1, hy2, hx1, hx2, rfl⟩ := mem_rectStage.mp he
    simp only [Event.addr, Option.some.injEq] at hea
    have := addr_inj hs ⟨by omega, by omega⟩ hx hea
    omega

/-! ## The text loop -/

/-- The loop over `pre ++ rest` is the loop over `pre` followed by the loop over
`rest` from the pen `pre` left. -/
theorem textLoop_append (env : RunEnv) (stride : Int) :
    ∀ (pre rest : List Char) (i : Nat) (pen : Pen),
      textLoop env stride i (pre ++ rest) pen =
        ((textLoop env stride (i + pre.length) rest (textLoop env stride i pre pen).1).1,
          (textLoop env stride i pre pen).2 ++
            (textLoop env stride (i + pre.length) rest (textLoop env stride i pre pen).1).2) := by
  intro pre
  induction pre with
  | nil => intro rest i pen; simp [textLoop]
  | cons c cs ih =>
    intro rest i pen
    have e : i + (c :: cs).length = i + 1 + cs.length := by simp; omega
    rw [e]
    simp only [List.cons_append, textLoop, List.append_eq, ih, List.append_assoc]

/-- Every store of a frame targets a row below 480 and a column below 640: the
upper bounds are what the loop conditions of `retro_run` check. -/
theorem retro_run_store_upper (env : RunEnv) (s : Core) (row stride col : Int) (v : Nat)
    (h : Event.store row stride col v ∈ (retro_run env s).2) : row < 480 ∧ col < 640 := by
  unfold retro_run at h
  split at h
  · simp at h
  · split at h
    · simp at h
    · simp only [List.mem_cons, List.mem_append, fillStages, reduceCtorEq, false_or] at h
      rcases h with ((h | h) | h) | h
      · obtain ⟨y, x, hy, hx, he⟩ := mem_clearStage.mp h
        simp only [Event.store.injEq] at he
        omega
      · obtain ⟨y, x, -, hy, -, hx, he⟩ := mem_rectStage.mp h
        simp only [Event.store.injEq] at he
        omega
      · have aux : ∀ (cs : List Char) (i : Nat) (pen : Pen),
            Event.store row stride col v ∈
              (textLoop env (Int.tdiv env.pitch 4) i cs pen).2 → row < 480 ∧ col < 640 := by
          intro cs
          induction cs with
          | nil => intro i pen h; simp [textLoop] at h
          | cons c cs ih =>
            intro i pen h
            simp only [textLoop, List.mem_append] at h
            rcases h with h | h
            · unfold textStep at h
              cases hl : env.FT_Load_Char i c with
              | none => rw [hl] at h; simp at h
              | some g =>
                rw [hl] at h
                obtain ⟨by_, bx, -, -, h1, h2, -, he⟩ := mem_drawGlyph.mp h
                simp only [Event.store.injEq] at he
                omega
            · exact ih _ _ h
        exact aux _ _ _ h
      · simp [frameEnd] at h

theorem specPixel_of_target (g : Glyph) (pen : Pen) (old : Nat) (px py : Int)
    (h : ∃ by_ bx : Nat, by_ < g.rows ∧ bx < g.width ∧ g.buffer (by_ * g.width + bx) ≠ 0 ∧
      px = pen.x + g.bitmap_left + (bx : Int) ∧ py = pen.y + 24 - g.bitmap_top + (by_ : Int)) :
    specPixel g pen old px py = WHITE := by
  unfold specPixel
  rw [if_pos]
  simp only [List.any_eq_true, List.mem_range, Bool.and_eq_true, decide_eq_true_eq]
  obtain ⟨by_, bx, h1, h2, h3, h4, h5⟩ := h
  exact ⟨by_, h1, bx, h2, ⟨h3, h4⟩, h5⟩

theorem specPixel_of_no_target (g : Glyph) (pen : Pen) (old : Nat) (px py : Int)
    (h : ¬ ∃ by_ bx : Nat, by_ < g.rows ∧ bx < g.width ∧ g.buffer (by_ * g.width + bx) ≠ 0 ∧
      px = pen.x + g.bitmap_left + (bx : Int) ∧ py = pen.y + 24 - g.bitmap_top + (by_ : Int)) :
    specPixel g pen old px py = old := by
  unfold specPixel
  rw [if_neg]
  simp only [List.any_eq_true, List.mem_range, Bool.and_eq_true, decide_eq_true_eq]
  rintro ⟨by_, h1, bx, h2, ⟨h3, h4⟩, h5⟩
  exact h ⟨by_, bx, h1, h2, h3, h4, h5⟩

/-- Where clipping is sound: when the glyph's left edge `pen.x + bitmap_left` is not
negative and the stride is at least 640, the compositing step leaves every pixel of
the frame as the specification says. -/
theorem drawGlyph_matches_spec (g : Glyph) (pen : Pen) (m : Mem) (stride px py : Int)
    (hs : 640 ≤ stride) (h0 : 0 ≤ pen.x + g.bitmap_left)
    (hx : 0 ≤ px ∧ px < 640) (hy : 0 ≤ py ∧ py < 480) :
    pixelAt (exec m (drawGlyph g stride pen.x pen.y)) stride px py =
      specPixel g pen (pixelAt m stride px py) px py := by
  unfold pixelAt
  by_cases hc : ∃ by_ bx : Nat, by_ < g.rows ∧ bx < g.width ∧
      g.buffer (by_ * g.width + bx) ≠ 0 ∧ px = pen.x + g.bitmap_left + (bx : Int) ∧
      py = pen.y + 24 - g.bitmap_top + (by_ : Int)
  · rw [specPixel_of_target g pen _ px py hc]
    obtain ⟨by_, bx, h1, h2, h3, h4, h5⟩ := hc
    apply exec_hit (fun v => v = WHITE)
    · refine ⟨_, mem_drawGlyph.mpr ⟨by_, bx, h1, h2, ?_, ?_, Nat.pos_of_ne_zero h3, rfl⟩, ?_⟩
      · unfold baseline_offset; omega
      · omega
      · simp only [Event.addr, Option.some.injEq, baseline_offset]
        have e1 : (by_ : Int) + pen.y - g.bitmap_top + 24 = py := by omega
        have e2 : (bx : Int) + pen.x + g.bitmap_left = px := by omega
        rw [e1, e2]
    · intro e he _ v hv
      obtain ⟨_, _, -, -, -, -, -, rfl⟩ := mem_drawGlyph.mp he
      simpa [Event.val] using hv.symm
  · rw [specPixel_of_no_target g pen _ px py hc]
    apply exec_not_hit
    intro e he hea
    obtain ⟨by_, bx, h1, h2, h3, h4, h5, rfl⟩ := mem_drawGlyph.mp he
    simp only [Event.addr, Option.some.injEq] at hea
    have := addr_inj hs ⟨by omega, h4⟩ hx hea
    apply hc
    refine ⟨by_, bx, h1, h2, Nat.pos_iff_ne_zero.mp h5, by omega, ?_⟩
    have := this.1
    unfold baseline_offset at this
    omega

/-- C1 (the code at two failing inputs): with the first character rasterized to a
glyph of left bearing -60, `retro_run` stores white at column -10 of row 74; with
a glyph of top bearing 80 it stores white at row -6.  Neither cell is skipped: the
glyph loops bound the target only from above. -/
theorem glyph_store_left_of_and_above_frame :
    Event.store 74 640 (-10) WHITE ∈ (retro_run (envFirst glyphLeft) coreRunning).2 ∧
    Event.store (-6) 640 50 WHITE ∈ (retro_run (envFirst glyphTop) coreRunning).2 := by
  constructor
  · rw [retro_run_ok _ _ (by decide) rfl]
    refine List.mem_cons_of_mem _ (List.mem_append_left _ (List.mem_append_right _ ?_))
    decide
  · rw [retro_run_ok _ _ (by decide) rfl]
    refine List.mem_cons_of_mem _ (List.mem_append_left _ (List.mem_append_right _ ?_))
    decide

/-- C2 (the code at a failing input): for the glyph of left bearing -60 at pen
`(50, 50)` and stride 640 the compositing step makes one store, to column -10 of
row 74; it lands on pixel `(630, 73)`, which was black and becomes white, while no
coverage cell targets `(630, 73)` and the specification leaves it black. -/
theorem glyph_store_wraps_into_previous_row :
    drawGlyph glyphLeft 640 50 50 = [Event.store 74 640 (-10) WHITE] ∧
    pixelAt memBlack 640 630 73 = BLACK ∧
    pixelAt (exec memBlack (drawGlyph glyphLeft 640 50 50)) 640 630 73 = WHITE ∧
    specPixel glyphLeft { x := 50, y := 50 } (pixelAt memBlack 640 630 73) 630 73 = BLACK := by
  decide

/-- C3: when the rasterization of the character `c` after `pre` fails, its
iteration leaves the pen as `pre` left it and has no event, and the loop over
`pre ++ c :: post` is the loop over `pre` followed by the loop over `post` from that
same pen. -/
theorem failed_glyph_is_skipped (env : RunEnv) (stride : Int) (pre : List Char) (c : Char)
    (post : List Char) (i : Nat) (pen : Pen)
    (h : env.FT_Load_Char (i + pre.length) c = none) :
    textStep env stride (i + pre.length) c (textLoop env stride i pre pen).1 =
        ((textLoop env stride i pre pen).1, []) ∧
    textLoop env stride i (pre ++ c :: post) pen =
      ((textLoop env stride (i + pre.length + 1) post (textLoop env stride i pre pen).1).1,
        (textLoop env stride i pre pen).2 ++
          (textLoop env stride (i + pre.length + 1) post
            (textLoop env stride i pre pen).1).2) := by
  have hs : textStep env stride (i + pre.length) c (textLoop env stride i pre pen).1 =
      ((textLoop env stride i pre pen).1, []) := by
    simp [textStep, h]
  refine ⟨hs, ?_⟩
  rw [textLoop_append]
  simp only [textLoop, hs, List.nil_append]

/-- C3 at a concrete input: no character rasterizes, text `Hel`, the failing
character is `e`. -/
theorem failed_glyph_is_skipped_witness :
    (envNoGlyph.FT_Load_Char (0 + ['H'].length) 'e' = none) ∧
    (textStep envNoGlyph 640 (0 + ['H'].length) 'e'
        (textLoop envNoGlyph 640 0 ['H'] { x := 50, y := 50 }).1 =
        ((textLoop envNoGlyph 640 0 ['H'] { x := 50, y := 50 }).1, []) ∧
    textLoop envNoGlyph 640 0 (['H'] ++ 'e' :: ['l']) { x := 50, y := 50 } =
      ((textLoop envNoGlyph 640 (0 + ['H'].length + 1) ['l']
          (textLoop envNoGlyph 640 0 ['H'] { x := 50, y := 50 }).1).1,
        (textLoop envNoGlyph 640 0 ['H'] { x := 50, y := 50 }).2 ++
          (textLoop envNoGlyph 640 (0 + ['H'].length + 1) ['l']
            (textLoop envNoGlyph 640 0 ['H'] { x := 50, y := 50 }).1).2)) :=
  ⟨rfl, failed_glyph_is_skipped envNoGlyph 640 ['H'] 'e' ['l'] 0 { x := 50, y := 50 } rfl⟩

/-- The font loop when the first attempt succeeds: the face is loaded by one call
on the one path of `font_paths`. -/
theorem fontLoop_loaded (env : InitEnv) (face : Option Nat) (h : env.FT_New_Face 0 = 0) :
    fontLoop env 3 0 face =
      (FontLoad.loaded, env.ft_face_out 0 face,
        [Event.FT_New_Face 0 (some "fonts/Kenney Mini.ttf") 0]) := by
  simp [fontLoop, font_paths, h]

/-- The font loop when the first attempt fails: the next call reads `font_paths[1]`,
past the array, and the loop ends undefined. -/
theorem fontLoop_undefined (env : InitEnv) (face : Option Nat) (h : env.FT_New_Face 0 ≠ 0) :
    fontLoop env 3 0 face =
      (FontLoad.undefined, env.ft_face_out 0 face,
        [Event.FT_New_Face 0 (some "fonts/Kenney Mini.ttf") (env.FT_New_Face 0),
         Event.FT_New_Face 1 none (env.FT_New_Face 1), Event.undefined_behaviour]) := by
  simp [fontLoop, font_paths, h]

/-- When `SDL_Init` and `FT_Init_FreeType` succeed and the first `FT_New_Face` fails,
`retro_init` runs into undefined behaviour: no failure path of the font load is a
defined execution. -/
theorem font_load_failure_is_undefined (env : InitEnv) (s : Core)
    (h1 : ¬ env.SDL_Init < 0) (h2 : env.FT_Init_FreeType = 0) (h3 : env.FT_New_Face 0 ≠ 0) :
    Event.undefined_behaviour ∈ (retro_init env s).2 := by
  simp [retro_init, h1, h2, fontLoop_undefined env _ h3]

theorem acquired_nil : acquired [] = [] := rfl

theorem released_nil : released [] = [] := rfl

theorem acquired_cons (e : Event) (t : List Event) :
    acquired (e :: t) = e.acquires.toList ++ acquired t := by
  cases h : e.acquires <;> simp [acquired, List.filterMap_cons, h]

theorem released_cons (e : Event) (t : List Event) :
    released (e :: t) = e.releases.toList ++ released t := by
  cases h : e.releases <;> simp [released, List.filterMap_cons, h]

theorem acquired_append (t1 t2 : List Event) :
    acquired (t1 ++ t2) = acquired t1 ++ acquired t2 := by
  simp [acquired]

theorem released_append (t1 t2 : List Event) :
    released (t1 ++ t2) = released t1 ++ released t2 := by
  simp [released]

/-- C8 (counterexample): called on a running core with `SDL_Init` failing,
`retro_init` fails at its first step and returns with `running` still 1. -/
theorem init_failure_keeps_running_flag :
    failingStep initSdlFails = some Step.sdl_init ∧
    coreRunning.running = 1 ∧
    (retro_init initSdlFails coreRunning).1.running = 1 ∧
    (retro_init initSdlFails coreRunning).1.running ≠ 0 := by
  decide

/-- C8 (amended): when a step of `retro_init` other than the font face load fails,
the call is a defined execution, the resources acquired during the call are those
of the earlier steps, the call releases exactly those, once each, in the reverse
order of acquisition, and returns with `running` as it was before the call, hence
0 when the core was not running. -/
theorem init_failure_unwinds (env : InitEnv) (s : Core) (step : Step)
    (h : failingStep env = some step) :
    Event.undefined_behaviour ∉ (retro_init env s).2 ∧
    acquired (retro_init env s).2 = heldBefore step ∧
    released (retro_init env s).2 = (heldBefore step).reverse ∧
    (heldBefore step).Nodup ∧
    (retro_init env s).1.running = s.running ∧
    (s.running = 0 → (retro_init env s).1.running = 0) := by
  have hnd : (heldBefore step).Nodup := by cases step <;> decide
  suffices hm : Event.undefined_behaviour ∉ (retro_init env s).2 ∧
      acquired (retro_init env s).2 = heldBefore step ∧
      released (retro_init env s).2 = (heldBefore step).reverse ∧
      (retro_init env s).1.running = s.running from
    ⟨hm.1, hm.2.1, hm.2.2.1, hnd, hm.2.2.2, fun h0 => by rw [hm.2.2.2, h0]⟩
  unfold failingStep at h
  split_ifs at h with c1 c2 c3 c4 c5 c6 c7 <;> cases h
  · simp [retro_init, c1, acquired, released, Event.acquires, Event.releases, heldBefore]
  · simp [retro_init, c1, c2, acquired, released, Event.acquires, Event.releases, heldBefore]
  all_goals
    have hf := fontLoop_loaded env s.ft_face (not_not.mp c3)
    simp only [retro_init, if_neg c1, ne_eq]
    simp only [not_not.mp c2, not_true_eq_false, if_false, hf]
    simp [acquired_append, released_append, acquired_cons, released_cons, acquired_nil,
      released_nil, Event.acquires, Event.releases, heldBefore, *]

/-- C8 (amended) at a concrete input: texture creation fails on a fresh core. -/
theorem init_failure_unwinds_witness :
    failingStep initNoTexture = some Step.texture ∧
    (Event.undefined_behaviour ∉ (retro_init initNoTexture Core.initial).2 ∧
    acquired (retro_init initNoTexture Core.initial).2 = heldBefore Step.texture ∧
    released (retro_init initNoTexture Core.initial).2 = (heldBefore Step.texture).reverse ∧
    (heldBefore Step.texture).Nodup ∧
    (retro_init initNoTexture Core.initial).1.running = Core.initial.running ∧
    (Core.initial.running = 0 → (retro_init initNoTexture Core.initial).1.running = 0)) :=
  ⟨by decide, init_failure_unwinds initNoTexture Core.initial Step.texture (by decide)⟩

/-- C10 (the code at a failing input): with the font file missing, the first
`FT_New_Face` fails and the loop goes on to call `FT_New_Face` on `font_paths[1]`,
read from an array of one entry; the behaviour is undefined from that read on. -/
theorem font_loop_reads_past_the_list :
    font_paths.length = 1 ∧
    initNoFont.FT_New_Face 0 ≠ 0 ∧
    Event.FT_New_Face 1 none 1 ∈ (retro_init initNoFont Core.initial).2 ∧
    (retro_init initNoFont Core.initial).2 =
      [Event.SDL_Init 0, Event.FT_Init_FreeType 0,
       Event.FT_New_Face 0 (some "fonts/Kenney Mini.ttf") 1,
       Event.FT_New_Face 1 none 1, Event.undefined_behaviour] := by
  decide

/-! ## Frame contents -/

/-- C5: on a frame that gets its lease with stride `pitch / 4 >= 640`, the trace
starts with the lock and the two fill stages, the text and the closing calls
follow; after the fill stages a pixel of the frame is red exactly inside
`[100,300) x [100,300)` and black outside, and at the end of the frame no pixel
outside that region is red. -/
theorem rectangle_is_exactly_red (env : RunEnv) (s : Core) (m : Mem) (x y : Int)
    (hrun : s.running ≠ 0) (hlock : env.SDL_LockTexture = 0)
    (hs : 640 ≤ Int.tdiv env.pitch 4)
    (hx : 0 ≤ x ∧ x < 640) (hy : 0 ≤ y ∧ y < 480) :
    (∃ rest, (retro_run env s).2 =
      (Event.SDL_LockTexture 0 :: fillStages (Int.tdiv env.pitch 4)) ++ rest ∧
      rest = (textLoop env (Int.tdiv env.pitch 4) 0 text { x := 50, y := 50 }).2
        ++ frameEnd env.pitch) ∧
    (pixelAt (exec m (Event.SDL_LockTexture 0 :: fillStages (Int.tdiv env.pitch 4)))
        (Int.tdiv env.pitch 4) x y = RED ↔ (100 ≤ x ∧ x < 300 ∧ 100 ≤ y ∧ y < 300)) ∧
    (¬ (100 ≤ x ∧ x < 300 ∧ 100 ≤ y ∧ y < 300) →
      pixelAt (exec m (Event.SDL_LockTexture 0 :: fillStages (Int.tdiv env.pitch 4)))
        (Int.tdiv env.pitch 4) x y = BLACK) ∧
    (¬ (100 ≤ x ∧ x < 300 ∧ 100 ≤ y ∧ y < 300) →
      pixelAt (exec m (retro_run env s).2) (Int.tdiv env.pitch 4) x y ≠ RED) := by
  have htrace : (retro_run env s).2 =
      (Event.SDL_LockTexture 0 :: fillStages (Int.tdiv env.pitch 4)) ++
        ((textLoop env (Int.tdiv env.pitch 4) 0 text { x := 50, y := 50 }).2
          ++ frameEnd env.pitch) := by
    rw [retro_run_ok env s hrun hlock]
    simp
  have hfill := exec_fill m (Int.tdiv env.pitch 4) x y hs hx hy
  refine ⟨⟨_, htrace, rfl⟩, ?_, ?_, ?_⟩
  · unfold pixelAt
    rw [hfill]
    by_cases hin : 100 ≤ x ∧ x < 300 ∧ 100 ≤ y ∧ y < 300
    · simp [hin]
    · rw [if_neg hin]
      simp only [hin, iff_false]
      decide
  · intro hin
    unfold pixelAt
    rw [hfill, if_neg hin]
  · intro hin
    unfold pixelAt
    rw [htrace, exec_append]
    rcases exec_cases ((textLoop env (Int.tdiv env.pitch 4) 0 text { x := 50, y := 50 }).2
        ++ frameEnd env.pitch)
        (exec m (Event.SDL_LockTexture 0 :: fillStages (Int.tdiv env.pitch 4)))
        (y * Int.tdiv env.pitch 4 + x) with ⟨h1, -⟩ | ⟨e, he, -, hv⟩
    · rw [h1, hfill, if_neg hin]
      decide
    · rcases List.mem_append.mp he with he | he
      · obtain ⟨row, col, rfl⟩ := textLoop_store_white env _ _ _ _ e he
        simp only [Event.val, Option.some.injEq] at hv
        rw [← hv]
        decide
      · rw [frameEnd_val env.pitch e he] at hv
        exact absurd hv (by simp)

/-- C5 at a concrete input: pitch 2560, pixel `(150, 150)`. -/
theorem rectangle_is_exactly_red_witness :
    coreRunning.running ≠ 0 ∧ envNoGlyph.SDL_LockTexture = 0 ∧
    640 ≤ Int.tdiv envNoGlyph.pitch 4 ∧ (0 ≤ (150 : Int) ∧ (150 : Int) < 640) ∧
    (0 ≤ (150 : Int) ∧ (150 : Int) < 480) ∧
    (pixelAt (exec memBlack
        (Event.SDL_LockTexture 0 :: fillStages (Int.tdiv envNoGlyph.pitch 4)))
        (Int.tdiv envNoGlyph.pitch 4) 150 150 = RED ↔
      (100 ≤ (150 : Int) ∧ (150 : Int) < 300 ∧ 100 ≤ (150 : Int) ∧ (150 : Int) < 300)) :=
  ⟨by decide, rfl, by decide, by decide, by decide,
    (rectangle_is_exactly_red envNoGlyph coreRunning memBlack 150 150 (by decide) rfl
      (by decide) (by decide) (by decide)).2.1⟩

/-- C6: at the end of a frame that gets its lease, whatever memory held before,
whatever the pitch and whatever the rasterizer returned, every pixel of the
640x480 frame holds exactly one of black, red and white. -/
theorem frame_pixels_in_palette (env : RunEnv) (s : Core) (m : Mem) (x y : Int)
    (hrun : s.running ≠ 0) (hlock : env.SDL_LockTexture = 0)
    (hx : 0 ≤ x ∧ x < 640) (hy : 0 ≤ y ∧ y < 480) :
    (pixelAt (exec m (retro_run env s).2) (Int.tdiv env.pitch 4) x y = BLACK ∨
      pixelAt (exec m (retro_run env s).2) (Int.tdiv env.pitch 4) x y = RED ∨
      pixelAt (exec m (retro_run env s).2) (Int.tdiv env.pitch 4) x y = WHITE) ∧
    BLACK ≠ RED ∧ BLACK ≠ WHITE ∧ RED ≠ WHITE := by
  refine ⟨?_, by decide, by decide, by decide⟩
  unfold pixelAt
  rw [retro_run_ok env s hrun hlock]
  apply exec_hit (fun v => v = BLACK ∨ v = RED ∨ v = WHITE)
  · refine ⟨Event.store y (Int.tdiv env.pitch 4) x BLACK, ?_, rfl⟩
    refine List.mem_cons_of_mem _ (List.mem_append_left _ (List.mem_append_left _ ?_))
    exact List.mem_append_left _ (clearStage_hit _ x y hx hy)
  · intro e he _ v hv
    simp only [List.mem_cons, List.mem_append, fillStages] at he
    rcases he with rfl | ((he | he) | he) | he
    · simp [Event.val] at hv
    · obtain ⟨y', x', -, -, rfl⟩ := mem_clearStage.mp he
      left
      simpa [Event.val] using hv.symm
    · obtain ⟨y', x', -, -, -, -, rfl⟩ := mem_rectStage.mp he
      right; left
      simpa [Event.val] using hv.symm
    · obtain ⟨row, col, rfl⟩ := textLoop_store_white env _ _ _ _ e he
      right; right
      simpa [Event.val] using hv.symm
    · rw [frameEnd_val env.pitch e he] at hv
      exact absurd hv (by simp)

/-- C6 at a concrete input: pitch 2560, the glyph of left bearing -60, pixel
`(630, 73)`. -/
theorem frame_pixels_in_palette_witness :
    coreRunning.running ≠ 0 ∧ (envFirst glyphLeft).SDL_LockTexture = 0 ∧
    (0 ≤ (630 : Int) ∧ (630 : Int) < 640) ∧ (0 ≤ (73 : Int) ∧ (73 : Int) < 480) ∧
    ((pixelAt (exec memBlack (retro_run (envFirst glyphLeft) coreRunning).2)
        (Int.tdiv (envFirst glyphLeft).pitch 4) 630 73 = BLACK ∨
      pixelAt (exec memBlack (retro_run (envFirst glyphLeft) coreRunning).2)
        (Int.tdiv (envFirst glyphLeft).pitch 4) 630 73 = RED ∨
      pixelAt (exec memBlack (retro_run (envFirst glyphLeft) coreRunning).2)
        (Int.tdiv (envFirst glyphLeft).pitch 4) 630 73 = WHITE) ∧
    BLACK ≠ RED ∧ BLACK ≠ WHITE ∧ RED ≠ WHITE) :=
  ⟨by decide, rfl, by decide, by decide,
    frame_pixels_in_palette (envFirst glyphLeft) coreRunning memBlack 630 73 (by decide) rfl
      (by decide) (by decide)⟩

/-! ## Abandoned frames and the lease -/

/-- C7: when the core is not running or the lock fails, `retro_run` returns the
core unchanged, its trace holds no store and no callback, memory is unchanged, and
a later frame runs as if the call had not happened. -/
theorem abandoned_frame_has_no_effect (env : RunEnv) (s : Core) (m : Mem)
    (h : s.running = 0 ∨ env.SDL_LockTexture ≠ 0) :
    (retro_run env s).1 = s ∧
    exec m (retro_run env s).2 = m ∧
    (∀ e ∈ (retro_run env s).2, e.isCallback = false ∧ e.usesPixels = false) ∧
    (∀ env', retro_run env' (retro_run env s).1 = retro_run env' s) := by
  by_cases hr : s.running = 0
  · simp [retro_run, hr, exec]
  · have hl : env.SDL_LockTexture ≠ 0 := h.resolve_left hr
    simp [retro_run, hr, hl, exec, applyEvent, Event.isCallback, Event.usesPixels]

/-- C7 at a concrete input: a running core whose lock fails. -/
theorem abandoned_frame_has_no_effect_witness :
    (coreRunning.running = 0 ∨ envLockFails.SDL_LockTexture ≠ 0) ∧
    ((retro_run envLockFails coreRunning).1 = coreRunning ∧
    exec memBlack (retro_run envLockFails coreRunning).2 = memBlack ∧
    (∀ e ∈ (retro_run envLockFails coreRunning).2,
      e.isCallback = false ∧ e.usesPixels = false) ∧
    (∀ env', retro_run env' (retro_run envLockFails coreRunning).1
      = retro_run env' coreRunning)) :=
  ⟨Or.inr (by decide),
    abandoned_frame_has_no_effect envLockFails coreRunning memBlack (Or.inr (by decide))⟩

/-- C9 (the code on every frame that gets its lease): the trace is the lock, then
the stores, then `SDL_UnlockTexture` immediately followed by `video_cb`, which
receives the leased pointer; every store precedes the unlock, the hand-over to
`video_cb` follows it. -/
theorem video_cb_follows_unlock (env : RunEnv) (s : Core)
    (hrun : s.running ≠ 0) (hlock : env.SDL_LockTexture = 0) :
    ∃ stores post, (retro_run env s).2 =
        Event.SDL_LockTexture 0 :: (stores ++
          Event.SDL_UnlockTexture :: Event.video_cb 640 480 env.pitch :: post) ∧
      (∀ e ∈ stores, ∃ row stride col v, e = Event.store row stride col v) ∧
      (Event.video_cb 640 480 env.pitch).usesPixels = true ∧
      (∀ e ∈ post, e.usesPixels = false) := by
  refine ⟨fillStages (Int.tdiv env.pitch 4) ++
      (textLoop env (Int.tdiv env.pitch 4) 0 text { x := 50, y := 50 }).2,
    [Event.SDL_SetRenderDrawColor 0 0 0 255, Event.SDL_RenderClear,
     Event.SDL_SetRenderDrawColor 255 0 0 255, Event.SDL_RenderFillRect 100 100 200 200,
     Event.SDL_RenderPresent, Event.input_poll_cb, Event.audio_batch_cb 0], ?_, ?_, rfl, ?_⟩
  · rw [retro_run_ok env s hrun hlock]
    simp [frameEnd]
  · intro e he
    simp only [List.mem_append, fillStages] at he
    rcases he with (he | he) | he
    · obtain ⟨y', x', -, -, rfl⟩ := mem_clearStage.mp he
      exact ⟨_, _, _, _, rfl⟩
    · obtain ⟨y', x', -, -, -, -, rfl⟩ := mem_rectStage.mp he
      exact ⟨_, _, _, _, rfl⟩
    · obtain ⟨row, col, rfl⟩ := textLoop_store_white env _ _ _ _ e he
      exact ⟨_, _, _, _, rfl⟩
  · intro e he
    simp only [List.mem_cons, List.mem_singleton, List.not_mem_nil, or_false] at he
    rcases he with h | h | h | h | h | h | h <;> rw [h] <;> rfl

/-- C9 at a concrete input: a running core, pitch 2560, no character rasterizes. -/
theorem video_cb_follows_unlock_witness :
    coreRunning.running ≠ 0 ∧ envNoGlyph.SDL_LockTexture = 0 ∧
    (∃ stores post, (retro_run envNoGlyph coreRunning).2 =
        Event.SDL_LockTexture 0 :: (stores ++
          Event.SDL_UnlockTexture :: Event.video_cb 640 480 envNoGlyph.pitch :: post) ∧
      (∀ e ∈ stores, ∃ row stride col v, e = Event.store row stride col v) ∧
      (Event.video_cb 640 480 envNoGlyph.pitch).usesPixels = true ∧
      (∀ e ∈ post, e.usesPixels = false)) :=
  ⟨by decide, rfl, video_cb_follows_unlock envNoGlyph coreRunning (by decide) rfl⟩

end LibretroCore
